import Mathlib

/-!
Shallow embedding of the otterpack core (`src/process.rs`, `src/self_extract.rs`,
and the run orchestration in `src/app.rs`).

Conventions used throughout:
* machine integers (`u64` offsets and sizes) are `Nat`, with the one wrapping
  subtraction of the signature scan modelled explicitly modulo `2 ^ 64`;
* file contents are `List Nat` (bytes), archive entry names are `List Char`;
* the external world (the outcome of each spawned ffmpeg invocation) is an
  oracle `Nat → InvocOutcome` consumed in invocation order;
* fallible steps return `Except`.
-/

set_option maxRecDepth 16000

namespace Otterpack

/-! ### Audio formats (`AudioFormat` in `process.rs`) -/

/-- The fixed set of output formats. -/
inductive AudioFormat
  | FLAC
  | Audacity
  | WAV
  | AAC
  | ALAC
deriving DecidableEq

/-- File extension chosen per format (`AudioFormat::extension`). -/
def AudioFormat.extension : AudioFormat → String
  | .FLAC | .Audacity => "flac"
  | .WAV => "wav"
  | .AAC => "m4a"
  | .ALAC => "m4a"

/-- Encoder argument list per format (`AudioFormat::ffmpeg_args`). -/
def AudioFormat.ffmpeg_args : AudioFormat → List String
  | .FLAC | .Audacity => ["-c:a", "flac", "-f", "flac"]
  | .WAV => ["-c:a", "pcm_s16le", "-f", "wav"]
  | .AAC => ["-c:a", "aac", "-f", "ipod"]
  | .ALAC => ["-c:a", "alac", "-f", "ipod"]

/-- Whether the format triggers Audacity project manifest export
(`AudioFormat::is_project_format`). -/
def AudioFormat.is_project_format : AudioFormat → Bool
  | .Audacity => true
  | _ => false

/-! ### The mix-mode filter graph (`process_files`, mix branch)

The Rust code builds the `-filter_complex` string by appending, per input
file, one labelled per-input filter segment, and, whenever the running
group counter `co` reaches 32, one `amix` close segment; a final `amix`
segment (output label `[aud]`) is always appended after the loop.  The
embedding keeps each appended piece as a `Seg`; `renderSeg` recovers the
exact text appended for each piece. -/

/-- One piece appended to the `filter_complex` string. `input i label dyn`
is `"[{i}:a]{dynaudnorm|anull}[aud{label}];"`; `amix labels count dyn out`
is `"[aud{l1}][aud{l2}]... amix={count}{,dynaudnorm}"` followed by
`"[aud{o}];"` when `out = some o` (an intermediate close) or by the
terminal `"[aud]"` when `out = none`. -/
inductive Seg
  | input (idx : Nat) (label : Nat) (dyn : Bool)
  | amix (labels : List Nat) (count : Nat) (dyn : Bool) (out : Option Nat)
deriving DecidableEq

/-- Loop state of the filter-graph construction: the segments appended so
far (the `filter` string), the labels accumulated in the current group
(the `mix_filter` string), and the counter `co`. -/
structure MixState where
  segs : List Seg
  mixLabels : List Nat
  co : Nat
deriving DecidableEq

/-- One iteration of the `for (i, file) in flac_files.iter().enumerate()`
loop: append the per-input filter segment and its label, increment `co`,
and when `co >= 32` close the group with an `amix` segment, reseed
`mix_filter` with the carry-over label and reset `co` to 1. -/
def mixStep (dyn : Bool) (s : MixState) (i : Nat) : MixState :=
  let segs := s.segs ++ [Seg.input i s.co dyn]
  let labels := s.mixLabels ++ [s.co]
  let co := s.co + 1
  if 32 ≤ co then
    ⟨segs ++ [Seg.amix labels co dyn (some co)], [co], 1⟩
  else
    ⟨segs, labels, co⟩

/-- The complete filter graph for `n` input files: run the loop over
inputs `0 .. n-1` starting from the empty state, then append the final
`amix` segment (`"{mix_filter} amix={co}{mix_extra}[aud]"`). -/
def mixGraph (n : Nat) (dyn : Bool) : List Seg :=
  let s := (List.range n).foldl (mixStep dyn) ⟨[], [], 0⟩
  s.segs ++ [Seg.amix s.mixLabels s.co dyn none]

/-- Exact text of one segment, matching the `format!` calls in the source. -/
def renderSeg : Seg → String
  | Seg.input i label dyn =>
    "[" ++ toString i ++ ":a]" ++ (if dyn then "dynaudnorm" else "anull") ++
      "[aud" ++ toString label ++ "];"
  | Seg.amix labels count dyn out =>
    String.join (labels.map (fun l => "[aud" ++ toString l ++ "]")) ++
      " amix=" ++ toString count ++ (if dyn then ",dynaudnorm" else "") ++
      (match out with
       | some o => "[aud" ++ toString o ++ "];"
       | none => "[aud]")

/-- The full `filter_complex` string passed to ffmpeg in mix mode. -/
def mixFilterString (n : Nat) (dyn : Bool) : String :=
  String.join ((mixGraph n dyn).map renderSeg)

/-- View of one `amix` stage of a filter graph: its input stream labels,
its `amix={count}` argument, and its output label (`none` for the
terminal `[aud]` stage). -/
structure AmixStage where
  labels : List Nat
  count : Nat
  out : Option Nat
deriving DecidableEq

/-- The `amix` stages of a filter graph, in order of appearance. -/
def amixStages (segs : List Seg) : List AmixStage :=
  segs.filterMap fun s =>
    match s with
    | Seg.input _ _ _ => none
    | Seg.amix labels count _ out => some ⟨labels, count, out⟩

/-- Well-formedness of a single `amix` stage: its `count` argument equals
its group size (number of input stream labels), and the group size never
exceeds ffmpeg's ceiling of 32. -/
def stageOk (st : AmixStage) : Prop :=
  st.count = st.labels.length ∧ st.labels.length ≤ 32

/-- Chaining of consecutive `amix` stages: the later group is seeded with
the carry-over stream produced by the earlier stage, i.e. its first input
label is the earlier stage's output label. -/
def chainRel (a b : AmixStage) : Prop := b.labels.head? = a.out

/-- Invariant maintained by the filter-graph construction loop: `co`
equals the size of the current group, `co` is at most 31 at iteration
boundaries, every closed stage is well-formed with output label 32,
closed stages are chained, and (once a group has been closed) the current
group starts with the last carry-over label. -/
def MixInv (s : MixState) : Prop :=
  s.co = s.mixLabels.length ∧ s.co ≤ 31 ∧
  (∀ st ∈ amixStages s.segs, stageOk st ∧ st.out = some 32) ∧
  List.Chain' chainRel (amixStages s.segs) ∧
  (amixStages s.segs ≠ [] → s.mixLabels.head? = some 32)

/-! ### Self-extraction: signature scan (`find_pack_source` in `self_extract.rs`)

The model covers the release path (`cfg!(debug_assertions)` false), in
which the function goes straight to the embedded-archive scan of the
current executable's bytes. -/

/-- The 4-byte zip local-file-header signature `b"PK\x03\x04"`. -/
def ZIP_MAGIC : List Nat := [0x50, 0x4B, 0x03, 0x04]

/-- Only the first 10 MiB of the container are searched. -/
def MAX_SEARCH_SIZE : Nat := 10 * 1024 * 1024

/-- Wrapping `u64` subtraction (Rust release-mode semantics), for
`a < 2 ^ 64` and `b ≤ 2 ^ 64`. -/
def u64sub (a b : Nat) : Nat := (a + (2 ^ 64 - b)) % 2 ^ 64

/-- The loop bound `search_size - ZIP_MAGIC.len()` computed in `u64`
arithmetic, where `search_size = file_size.min(MAX_SEARCH_SIZE)`. -/
def scanBound (fileSize : Nat) : Nat := u64sub (min fileSize MAX_SEARCH_SIZE) 4

/-- Result of the embedded-archive scan: the fields of
`PackSource::EmbeddedZip` on success, a propagated `read_exact` error
(first failing position) when a read goes past end of file, or the
"no bundled ZIP" failure when the loop exhausts its bound. -/
inductive ScanResult
  | found (zipStart zipSize : Nat)
  | readErr (pos : Nat)
  | notFound
deriving DecidableEq

/-- The `while pos < search_size - ZIP_MAGIC.len()` loop. `fuel` is the
number of remaining loop iterations, i.e. `bound - pos` (the guard
`pos < bound` holds exactly when `fuel > 0`); per iteration the code
seeks to `pos`, reads 4 bytes (`read_exact` fails past end of file),
compares them with the signature, and otherwise advances `pos` by 1. -/
def scanLoop (data : List Nat) (fileSize : Nat) : Nat → Nat → ScanResult
  | 0, _ => .notFound
  | fuel + 1, pos =>
    if pos + 4 ≤ fileSize then
      if (data.drop pos).take 4 = ZIP_MAGIC then .found pos (fileSize - pos)
      else scanLoop data fileSize fuel (pos + 1)
    else .readErr pos

/-- The release-mode body of `find_pack_source`, over the bytes of the
current executable: scan positions `0, 1, ...` while
`pos < min(file_size, MAX_SEARCH_SIZE) - 4` (computed in `u64`), and
return `EmbeddedZip { zip_start = pos, zip_size = file_size - pos }` at
the first signature match. -/
def find_pack_source (data : List Nat) : ScanResult :=
  scanLoop data data.length (scanBound data.length) 0

/-! ### Self-extraction: archive extraction (`extract_zip_contents`) -/

/-- The skip condition applied to each archive entry name:
`name.ends_with('/') || name.contains('/') || name.contains('\\')`. -/
def skipEntry (name : List Char) : Bool :=
  name.getLast? = some '/' || name.contains '/' || name.contains '\\'

/-- The extraction loop over archive entries, in index order: entries
that denote directories or live in subdirectories are skipped, every
other entry is materialized as a same-named file in the temporary
directory. The returned list is the names of the files written, in
order. -/
def extract_zip_contents : List (List Char) → List (List Char)
  | [] => []
  | name :: rest =>
    if skipEntry name then extract_zip_contents rest
    else name :: extract_zip_contents rest

/-! ### Conversion run (`process_files`) and orchestration (`app.rs`) -/

/-- Payload of a `ProcessProgress::Processing` event. -/
structure ProgressInfo where
  filename : String
  current : Nat
  total : Nat
deriving DecidableEq

/-- Outcome of awaiting `command.status()`: the process ran and exited
with `code`, or spawning/awaiting itself failed. -/
inductive InvocOutcome
  | exits (code : Nat)
  | spawnErr
deriving DecidableEq

/-- Errors returned by `process_files`. -/
inductive RunError
  | ffmpegMissing
  | mixFailed (code : Nat)
  | convertFailed (code : Nat)
  | spawnFailed
deriving DecidableEq

/-- The numeric exit status carried by an error, when there is one. -/
def RunError.exitCode : RunError → Option Nat
  | .mixFailed c => some c
  | .convertFailed c => some c
  | _ => none

/-- Helper for `setExtension`: given the reversed characters of a file
name, return the reversed stem in front of the last dot, or `none` when
the name has no extension (no dot, or only a leading dot). Mirrors Rust
`Path::file_stem` / `Path::extension`. -/
def dropLastExt : List Char → Option (List Char)
  | [] => none
  | c :: rest =>
    if c = '.' then (if rest = [] then none else some rest)
    else dropLastExt rest

/-- Rust `PathBuf::set_extension` on a bare file name: replace the part
after the final dot (if any) with `ext`, else append `"." ++ ext`. -/
def setExtension (name ext : String) : String :=
  match dropLastExt name.data.reverse with
  | some revStem => String.mk revStem.reverse ++ "." ++ ext
  | none => name ++ "." ++ ext

/-- The fixed Audacity project header (`AUP_HEADER` in `process.rs`). -/
def AUP_HEADER : String :=
  "<?xml version=\"1.0\" standalone=\"no\" ?>\n" ++
  "<!DOCTYPE project PUBLIC \"-//audacityproject-1.3.0//DTD//EN\" \"http://audacity.sourceforge.net/xml/audacityproject-1.3.0.dtd\" >\n" ++
  "<project xmlns=\"http://audacity.sourceforge.net/xml/\" projname=\"Craig\" version=\"1.3.0\" audacityversion=\"2.2.2\" rate=\"48000.0\">\n"

/-- The data subfolder used for project-format output
(`AUP_FOLDER_NAME`). -/
def AUP_FOLDER_NAME : String := "craig_data"

/-- One manifest entry: the fixed default per-track metadata (offset
zero, unmuted, default height/gain/pan) around the produced file name. -/
def aupEntry (file : String) : String :=
  "\t<import filename=\"" ++ file ++
    "\" offset=\"0.00000000\" mute=\"0\" solo=\"0\" height=\"150\" minimized=\"0\" gain=\"1.0\" pan=\"0.0\"/>\n"

/-- Accumulated observable effects of the per-file conversion loop. -/
structure LoopOut where
  events : List ProgressInfo
  invocations : Nat
  outFiles : List String
  err : Option RunError
deriving DecidableEq

/-- The non-mix branch of `process_files`: for each input (index `i`,
running total `total`), send a `Processing` event, push the output file
name, run one ffmpeg invocation (the `i`-th outcome of the oracle), and
stop at the first failure (`?` on spawn errors, explicit `Err` on a
non-zero exit status). -/
def convertLoop (outcomes : Nat → InvocOutcome) (ext : String) (total : Nat) :
    List String → Nat → LoopOut
  | [], _ => ⟨[], 0, [], none⟩
  | f :: rest, i =>
    let ev : ProgressInfo := ⟨f, i, total⟩
    let outFile := setExtension f ext
    match outcomes i with
    | InvocOutcome.exits code =>
      if code = 0 then
        let r := convertLoop outcomes ext total rest (i + 1)
        ⟨ev :: r.events, r.invocations + 1, outFile :: r.outFiles, r.err⟩
      else ⟨[ev], 1, [outFile], some (RunError.convertFailed code)⟩
    | InvocOutcome.spawnErr => ⟨[ev], 1, [outFile], some RunError.spawnFailed⟩

/-- Everything observable about one `process_files` call: the
`Processing` events sent, the number of external invocations started,
the produced output file names (`result_files`) and their full paths,
the mix filter graph built (mix mode only), the manifest write
(path and contents), and the returned result. -/
structure ProcOutput where
  events : List ProgressInfo
  invocations : Nat
  resultFiles : List String
  outputPaths : List (List String)
  filterGraph : Option (List Seg)
  aup : Option (List String × String)
  result : Except RunError Unit

/-- Shared tail of the successful paths of `process_files`: when the
format is a project format, write the manifest — header, one entry per
produced file in production order, closing tag — to
`root_output_path.join("craig.aup")`; then return `Ok(())`. -/
def finishRun (root : List String) (format : AudioFormat) (events : List ProgressInfo)
    (inv : Nat) (files : List String) (outputPath : List String)
    (graph : Option (List Seg)) : ProcOutput :=
  ⟨events, inv, files, files.map (fun f => outputPath ++ [f]), graph,
    if format.is_project_format then
      some (root ++ ["craig.aup"],
        AUP_HEADER ++ String.join (files.map aupEntry) ++ "</project>")
    else none,
    Except.ok ()⟩

/-- The body of `process_files`. Paths are lists of components; `root`
is `root_output_path`; `flacFiles` is the list of collected `*.flac`
file names in enumeration order; `ffmpegExists` is whether
`resource_path/ffmpeg.exe` exists; `outcomes` gives the exit of each
external invocation in start order. The effective output directory is
`root` plus the `craig_data` subfolder for project formats. -/
def process_files (ffmpegExists : Bool) (flacFiles : List String) (root : List String)
    (format : AudioFormat) (useDynaudnorm mix : Bool)
    (outcomes : Nat → InvocOutcome) : ProcOutput :=
  let outputPath := if format.is_project_format then root ++ [AUP_FOLDER_NAME] else root
  if !ffmpegExists then
    ⟨[], 0, [], [], none, none, Except.error RunError.ffmpegMissing⟩
  else if mix && !flacFiles.isEmpty then
    let ev : ProgressInfo := ⟨"Mixed output", 0, 1⟩
    let graph := mixGraph flacFiles.length useDynaudnorm
    let outFile := setExtension "craig" format.extension
    match outcomes 0 with
    | InvocOutcome.exits code =>
      if code = 0 then
        finishRun root format [ev] 1 [outFile] outputPath (some graph)
      else ⟨[ev], 1, [outFile], [outputPath ++ [outFile]], some graph, none,
        Except.error (RunError.mixFailed code)⟩
    | InvocOutcome.spawnErr =>
      ⟨[ev], 1, [outFile], [outputPath ++ [outFile]], some graph, none,
        Except.error RunError.spawnFailed⟩
  else
    let r := convertLoop outcomes format.extension flacFiles.length flacFiles 0
    match r.err with
    | some e => ⟨r.events, r.invocations, r.outFiles,
        r.outFiles.map (fun f => outputPath ++ [f]), none, none, Except.error e⟩
    | none => finishRun root format r.events r.invocations r.outFiles outputPath none

/-- Failures of `setup_resources` preceding any conversion
(`self_extract.rs`): locator, extraction, or required-binary validation
failure. -/
inductive SetupError
  | locatorFailed
  | extractionFailed
  | validationFailed
deriving DecidableEq

/-- The reason carried by a terminal `Error` event of a run. -/
inductive FailReason
  | setup (e : SetupError)
  | run (e : RunError)
deriving DecidableEq

/-- Events observed on the progress channel of one run
(`AppProgress::Process` in `app.rs`). -/
inductive AppEvent
  | processing (info : ProgressInfo)
  | finished
  | failed (r : FailReason)
deriving DecidableEq

/-- Whether an event is terminal (`Finished` or `Error`). -/
def AppEvent.isTerminal : AppEvent → Bool
  | .processing _ => false
  | .finished => true
  | .failed _ => true

/-- The async task spawned on "Go" (`TemplateApp::update`): run
`setup_resources`; on failure send one `Error` event; otherwise run
`process_files` (which sends its `Processing` events in order) and then
send exactly one `Finished` or `Error` event according to its result.
The returned list is the full channel trace of the run, in send order. -/
def runTask (setup : Except SetupError Unit) (ffmpegExists : Bool)
    (flacFiles : List String) (root : List String) (format : AudioFormat)
    (useDynaudnorm mix : Bool) (outcomes : Nat → InvocOutcome) : List AppEvent :=
  match setup with
  | Except.error e => [AppEvent.failed (FailReason.setup e)]
  | Except.ok _ =>
    let out := process_files ffmpegExists flacFiles root format useDynaudnorm mix outcomes
    out.events.map AppEvent.processing ++
      [match out.result with
       | Except.ok _ => AppEvent.finished
       | Except.error e => AppEvent.failed (FailReason.run e)]

/-! ### Mix filter graph: stage invariants (claims C1, C3) -/

lemma amixStages_append (l l' : List Seg) :
    amixStages (l ++ l') = amixStages l ++ amixStages l' :=
  List.filterMap_append l l' _

lemma amixStages_input (l : List Seg) (i c : Nat) (d : Bool) :
    amixStages (l ++ [Seg.input i c d]) = amixStages l := by
  rw [amixStages_append]
  simp [amixStages]

lemma amixStages_amix (l : List Seg) (labels : List Nat) (c : Nat) (d : Bool)
    (o : Option Nat) :
    amixStages (l ++ [Seg.amix labels c d o]) = amixStages l ++ [⟨labels, c, o⟩] := by
  rw [amixStages_append]
  simp [amixStages]

lemma mixInv_mk (segs : List Seg) (labels : List Nat) (co : Nat)
    (h1 : co = labels.length) (h2 : co ≤ 31)
    (h3 : ∀ st ∈ amixStages segs, stageOk st ∧ st.out = some 32)
    (h4 : List.Chain' chainRel (amixStages segs))
    (h5 : amixStages segs ≠ [] → labels.head? = some 32) :
    MixInv ⟨segs, labels, co⟩ :=
  ⟨h1, h2, h3, h4, h5⟩

lemma head_some_32_eq_cons {l : List Nat} (h : l.head? = some 32) :
    ∃ t, l = 32 :: t := by
  rcases l with _ | ⟨a, t⟩
  · simp at h
  · simp only [List.head?_cons, Option.some.injEq] at h
    exact ⟨t, by rw [h]⟩

lemma mixStep_inv (dyn : Bool) (i : Nat) (s : MixState) (h : MixInv s) :
    MixInv (mixStep dyn s i) := by
  obtain ⟨hco, hco31, hstages, hchain, hseed⟩ := h
  have hmlne : amixStages s.segs ≠ [] → ∃ t, s.mixLabels = 32 :: t :=
    fun hne => head_some_32_eq_cons (hseed hne)
  unfold mixStep
  by_cases h32 : 32 ≤ s.co + 1
  · rw [if_pos h32]
    have hco32 : s.co + 1 = 32 := by omega
    have hsegs : amixStages (s.segs ++ [Seg.input i s.co dyn] ++
        [Seg.amix (s.mixLabels ++ [s.co]) (s.co + 1) dyn (some (s.co + 1))]) =
        amixStages s.segs ++ [⟨s.mixLabels ++ [s.co], s.co + 1, some (s.co + 1)⟩] := by
      rw [amixStages_amix, amixStages_input]
    refine mixInv_mk _ _ _ (by simp) (by omega) ?_ ?_ ?_
    · rw [hsegs]
      intro st hst
      rcases List.mem_append.1 hst with h1 | h2
      · exact hstages st h1
      · have hst2 : st = ⟨s.mixLabels ++ [s.co], s.co + 1, some (s.co + 1)⟩ := by
          simpa using h2
        subst hst2
        exact ⟨⟨by simp [← hco], by simp [← hco]; omega⟩, by simp [hco32]⟩
    · rw [hsegs]
      refine List.chain'_append.2 ⟨hchain, List.chain'_singleton _, ?_⟩
      intro x hx y hy
      have hy2 : ([(⟨s.mixLabels ++ [s.co], s.co + 1, some (s.co + 1)⟩ : AmixStage)]).head? =
          some y := hy
      simp only [List.head?_cons, Option.some.injEq] at hy2
      have hne : amixStages s.segs ≠ [] := by
        intro hnil
        rw [hnil] at hx
        simp at hx
      obtain ⟨t, hml⟩ := hmlne hne
      rcases List.mem_getLast?_eq_getLast hx with ⟨hxe, rfl⟩
      have hout := (hstages _ (List.getLast_mem hxe)).2
      show y.labels.head? = _
      rw [← hy2, hml, hout]
      simp
    · rw [hsegs]
      intro _
      simp [hco32]
  · rw [if_neg h32]
    refine mixInv_mk _ _ _ (by simp [hco]) (by omega) ?_ ?_ ?_
    · rw [amixStages_input]
      exact hstages
    · rw [amixStages_input]
      exact hchain
    · rw [amixStages_input]
      intro hne
      obtain ⟨t, hml⟩ := hmlne hne
      rw [hml]
      simp

lemma foldl_mixStep_inv (dyn : Bool) (l : List Nat) (s : MixState) (h : MixInv s) :
    MixInv (l.foldl (mixStep dyn) s) := by
  induction l generalizing s with
  | nil => exact h
  | cons a t ih => exact ih _ (mixStep_inv dyn a s h)

lemma mixInv_init : MixInv ⟨[], [], 0⟩ := by
  refine mixInv_mk _ _ _ rfl (by omega) ?_ ?_ ?_ <;> simp [amixStages]

/-- Claim C3: for every number of input files and every setting of the
normalization flag, every `amix` stage of the mix-mode filter graph has
at most 32 input streams and a `count` argument equal to its group size,
and each group after the first is seeded with the carry-over stream
produced by the previous group's `amix` stage. -/
theorem mixGraph_amix_stage_invariants (n : Nat) (dyn : Bool) :
    (∀ st ∈ amixStages (mixGraph n dyn),
      st.count = st.labels.length ∧ st.labels.length ≤ 32) ∧
    List.Chain' (fun a b => b.labels.head? = a.out) (amixStages (mixGraph n dyn)) := by
  obtain ⟨hco, hco31, hstages, hchain, hseed⟩ :=
    foldl_mixStep_inv dyn (List.range n) ⟨[], [], 0⟩ mixInv_init
  set s := (List.range n).foldl (mixStep dyn) (⟨[], [], 0⟩ : MixState) with hs
  have hmlne : amixStages s.segs ≠ [] → ∃ t, s.mixLabels = 32 :: t :=
    fun hne => head_some_32_eq_cons (hseed hne)
  have hg : mixGraph n dyn = s.segs ++ [Seg.amix s.mixLabels s.co dyn none] := by
    rw [mixGraph, ← hs]
  rw [hg, amixStages_amix]
  constructor
  · intro st hst
    rcases List.mem_append.1 hst with h1 | h2
    · exact ((hstages st h1).1 : stageOk st)
    · have hst2 : st = ⟨s.mixLabels, s.co, none⟩ := by simpa using h2
      subst hst2
      exact ⟨hco, (by omega : s.mixLabels.length ≤ 32)⟩
  · refine List.chain'_append.2 ⟨hchain, List.chain'_singleton _, ?_⟩
    intro x hx y hy
    have hy2 : ([(⟨s.mixLabels, s.co, none⟩ : AmixStage)]).head? = some y := hy
    simp only [List.head?_cons, Option.some.injEq] at hy2
    have hne : amixStages s.segs ≠ [] := by
      intro hnil
      rw [hnil] at hx
      simp at hx
    obtain ⟨t, hml⟩ := hmlne hne
    rcases List.mem_getLast?_eq_getLast hx with ⟨hxe, rfl⟩
    have hout := (hstages _ (List.getLast_mem hxe)).2
    show y.labels.head? = _
    rw [← hy2, hml, hout]
    simp

/-- Claim C3 witness: the single `amix` stage of the 2-input graph is
well-formed. -/
theorem mixGraph_amix_stage_invariants_witness :
    (⟨[0, 1], 2, none⟩ : AmixStage) ∈ amixStages (mixGraph 2 false) ∧
    ((⟨[0, 1], 2, none⟩ : AmixStage).count = (⟨[0, 1], 2, none⟩ : AmixStage).labels.length ∧
      (⟨[0, 1], 2, none⟩ : AmixStage).labels.length ≤ 32) :=
  ⟨by decide, (mixGraph_amix_stage_invariants 2 false).1 _ (by decide)⟩

/-- Claim C1 counterexample: for exactly 32 input files the filter graph
built by `process_files` in mix mode does not contain exactly one `amix`
stage — closing the full group of 32 resets the counter to 1, and the
final `amix` is still appended, giving two stages (`amix=32` followed by
a degenerate `amix=1` over the carry-over stream alone). -/
theorem mixGraph_32_not_single_amix :
    (process_files true ((List.range 32).map (fun i => toString i ++ ".flac")) ["out"]
        AudioFormat.FLAC false true (fun _ => InvocOutcome.exits 0)).filterGraph =
      some (mixGraph 32 false) ∧
    (amixStages (mixGraph 32 false)).map AmixStage.count = [32, 1] ∧
    (amixStages (mixGraph 32 false)).length ≠ 1 := by
  refine ⟨rfl, by decide, by decide⟩

/-- Claim C1 amended: mixing exactly 32 input files produces a filter
graph with two `amix` stages, `amix=32` followed by a degenerate `amix=1`
fed only by the carry-over stream; mixing 33 input files produces two
chained `amix` stages, `amix=32` followed by `amix=2` fed by the
carry-over stream (label 32) and the remaining input. This holds for
either setting of the normalization flag. -/
theorem mixGraph_32_33_stage_counts (dyn : Bool) :
    (amixStages (mixGraph 32 dyn)).map AmixStage.count = [32, 1] ∧
    (amixStages (mixGraph 32 dyn)).map AmixStage.labels = [List.range 32, [32]] ∧
    (amixStages (mixGraph 33 dyn)).map AmixStage.count = [32, 2] ∧
    (amixStages (mixGraph 33 dyn)).map AmixStage.labels = [List.range 32, [32, 1]] ∧
    (amixStages (mixGraph 33 dyn)).map AmixStage.out = [some 32, none] := by
  cases dyn <;> refine ⟨by decide, by decide, by decide, by decide, by decide⟩

/-! ### Signature scan (claims C2, C4) -/

lemma two_pow_64_eq : (2 : Nat) ^ 64 = 18446744073709551616 := by norm_num

lemma scanBound_eq_of_le {L : Nat} (h : 4 ≤ L) :
    scanBound L = min L MAX_SEARCH_SIZE - 4 := by
  have hmin4 : 4 ≤ min L MAX_SEARCH_SIZE := by
    have : (4 : Nat) ≤ MAX_SEARCH_SIZE := by norm_num [MAX_SEARCH_SIZE]
    omega
  have hminlt : min L MAX_SEARCH_SIZE < 2 ^ 64 := by
    have h1 : min L MAX_SEARCH_SIZE ≤ MAX_SEARCH_SIZE := min_le_right _ _
    have h2 : MAX_SEARCH_SIZE < 2 ^ 64 := by
      rw [two_pow_64_eq]
      norm_num [MAX_SEARCH_SIZE]
    omega
  unfold scanBound u64sub
  rw [two_pow_64_eq] at hminlt ⊢
  omega

lemma scanLoop_finds (data : List Nat) (p : Nat)
    (hmag : (data.drop p).take 4 = ZIP_MAGIC)
    (hfirst : ∀ q, q < p → (data.drop q).take 4 ≠ ZIP_MAGIC)
    (hp4 : p + 4 ≤ data.length) :
    ∀ fuel pos, pos ≤ p → p < pos + fuel →
      scanLoop data data.length fuel pos = ScanResult.found p (data.length - p) := by
  intro fuel
  induction fuel with
  | zero =>
    intro pos h1 h2
    omega
  | succ fuel ih =>
    intro pos h1 h2
    by_cases hpos : pos = p
    · subst hpos
      simp [scanLoop, hmag, hp4]
    · have hlt : pos < p := by omega
      have hr : pos + 4 ≤ data.length := by omega
      simp only [scanLoop, if_pos hr, if_neg (hfirst pos hlt)]
      exact ih (pos + 1) (by omega) (by omega)

lemma scanLoop_found_bounds (data : List Nat) (L : Nat) :
    ∀ fuel pos p sz, scanLoop data L fuel pos = ScanResult.found p sz →
      pos ≤ p ∧ p < pos + fuel ∧ p + 4 ≤ L := by
  intro fuel
  induction fuel with
  | zero =>
    intro pos p sz h
    simp [scanLoop] at h
  | succ fuel ih =>
    intro pos p sz h
    rw [scanLoop] at h
    by_cases hr : pos + 4 ≤ L
    · rw [if_pos hr] at h
      by_cases hm : (data.drop pos).take 4 = ZIP_MAGIC
      · rw [if_pos hm] at h
        have hp : pos = p := by
          cases h
          rfl
        omega
      · rw [if_neg hm] at h
        have := ih (pos + 1) p sz h
        omega
    · rw [if_neg hr] at h
      cases h

/-- Claim C2 counterexample: for the 8-byte container
`[0, 0, 0, 0, 0x50, 0x4B, 0x03, 0x04]`, the first (and only) occurrence
of the zip signature is at offset 4, which lies within the first
`min(L, 10 MiB) = 8` bytes; the claim demands `EmbeddedZip` with
`zip_start = 4` and `zip_size = 4`, but the scan loop's strict bound
`pos < min(L, 10 MiB) - 4 = 4` stops before position 4 and the function
fails with the "no bundled ZIP" error instead. -/
theorem find_pack_source_misses_tail_signature :
    (List.drop 4 [0, 0, 0, 0, 0x50, 0x4B, 0x03, 0x04]).take 4 = ZIP_MAGIC ∧
    (4 : Nat) < min (List.length ([0, 0, 0, 0, 0x50, 0x4B, 0x03, 0x04] : List Nat))
      MAX_SEARCH_SIZE ∧
    find_pack_source [0, 0, 0, 0, 0x50, 0x4B, 0x03, 0x04] = ScanResult.notFound := by
  refine ⟨by decide, by decide, by decide⟩

/-- Claim C2 amended: for every container whose first occurrence of the
4-byte zip signature is at offset `p` with `p + 4 < min(L, 10 MiB)`
(the loop's exclusive bound is `min(L, 10 MiB) - 4`), `find_pack_source`
outside development mode returns `EmbeddedZip` with `zip_start = p` and
`zip_size = L - p`; the first signature in byte order wins. Signatures
at larger offsets — even ones lying wholly inside the first
`min(L, 10 MiB)` bytes, as the original claim asserted — are missed. -/
theorem find_pack_source_finds_first_signature (data : List Nat) (p : Nat)
    (hp : p + 4 < min data.length MAX_SEARCH_SIZE)
    (hmag : (data.drop p).take 4 = ZIP_MAGIC)
    (hfirst : ∀ q, q < p → (data.drop q).take 4 ≠ ZIP_MAGIC) :
    find_pack_source data = ScanResult.found p (data.length - p) := by
  have hL : 4 ≤ data.length := by
    have := min_le_left data.length MAX_SEARCH_SIZE
    omega
  have hbound : scanBound data.length = min data.length MAX_SEARCH_SIZE - 4 :=
    scanBound_eq_of_le hL
  have hp4 : p + 4 ≤ data.length := by
    have := min_le_left data.length MAX_SEARCH_SIZE
    omega
  rw [find_pack_source, hbound]
  exact scanLoop_finds data p hmag hfirst hp4 _ 0 (Nat.zero_le p) (by omega)

/-- Claim C2 witness: a 9-byte container whose signature sits at offset 0
is located with `zip_start = 0`, `zip_size = 9`. -/
theorem find_pack_source_finds_first_signature_witness :
    find_pack_source [0x50, 0x4B, 0x03, 0x04, 0, 0, 0, 0, 0] =
      ScanResult.found 0 (List.length ([0x50, 0x4B, 0x03, 0x04, 0, 0, 0, 0, 0] : List Nat) - 0) :=
  find_pack_source_finds_first_signature _ 0 (by decide) (by decide)
    (fun q hq => absurd hq (Nat.not_lt_zero q))

/-- Claim C4 counterexample: for a container of length 0 the loop bound
is not computed without arithmetic underflow: `min(0, 10 MiB) - 4`
wraps in `u64` to `2^64 - 4` instead of the underflow-free value 0, so
the loop guard at position 0 is satisfied even though the bounded window
contains no position. -/
theorem scanBound_underflows_on_tiny_file :
    scanBound 0 = 2 ^ 64 - 4 ∧
    min 0 MAX_SEARCH_SIZE - 4 = 0 ∧
    (2 : Nat) ^ 64 - 4 ≠ 0 := by
  refine ⟨by decide, by decide, by decide⟩

/-- Claim C4 amended: for every container length `L ≥ 4` the loop bound
`min(L, 10 MiB) - 4` is computed without underflow, and any successful
match lies strictly inside the bounded window (`p + 4 < min(L, 10 MiB)`),
so the scan never examines the whole binary beyond the first 10 MiB; for
`L < 4` the `u64` subtraction wraps, but the scan still terminates
deterministically — immediately, with a propagated read error at
position 0, because the very first 4-byte read goes past end of file. -/
theorem scan_window_bounded (data : List Nat) :
    (4 ≤ data.length → scanBound data.length = min data.length MAX_SEARCH_SIZE - 4) ∧
    (data.length < 4 → find_pack_source data = ScanResult.readErr 0) ∧
    (∀ p sz, find_pack_source data = ScanResult.found p sz →
      p + 4 < min data.length MAX_SEARCH_SIZE) := by
  refine ⟨fun h => scanBound_eq_of_le h, fun hL => ?_, fun p sz h => ?_⟩
  · have hb : scanBound data.length ≠ 0 := by
      unfold scanBound u64sub
      rw [two_pow_64_eq]
      have : min data.length MAX_SEARCH_SIZE ≤ data.length := min_le_left _ _
      omega
    obtain ⟨k, hk⟩ := Nat.exists_eq_succ_of_ne_zero hb
    rw [find_pack_source, hk, scanLoop, if_neg (by omega)]
  · by_cases hL : 4 ≤ data.length
    · rw [find_pack_source, scanBound_eq_of_le hL] at h
      have := scanLoop_found_bounds data data.length _ 0 p sz h
      have hmin4 : 4 ≤ min data.length MAX_SEARCH_SIZE := by
        have : (4 : Nat) ≤ MAX_SEARCH_SIZE := by norm_num [MAX_SEARCH_SIZE]
        omega
      omega
    · have hb : scanBound data.length ≠ 0 := by
        unfold scanBound u64sub
        rw [two_pow_64_eq]
        have : min data.length MAX_SEARCH_SIZE ≤ data.length := min_le_left _ _
        omega
      obtain ⟨k, hk⟩ := Nat.exists_eq_succ_of_ne_zero hb
      rw [find_pack_source, hk, scanLoop, if_neg (by omega)] at h
      cases h

/-- Claim C4 witness: the bound is underflow-free at length 5, the empty
container fails with a read error at position 0, and a found signature
in a 5-byte container lies inside the window. -/
theorem scan_window_bounded_witness :
    scanBound (List.length ([0, 0, 0, 0, 0] : List Nat)) =
      min (List.length ([0, 0, 0, 0, 0] : List Nat)) MAX_SEARCH_SIZE - 4 ∧
    find_pack_source ([] : List Nat) = ScanResult.readErr 0 ∧
    (0 : Nat) + 4 < min (List.length ([0x50, 0x4B, 0x03, 0x04, 0] : List Nat)) MAX_SEARCH_SIZE :=
  ⟨(scan_window_bounded [0, 0, 0, 0, 0]).1 (by decide),
   (scan_window_bounded []).2.1 (by decide),
   (scan_window_bounded [0x50, 0x4B, 0x03, 0x04, 0]).2.2 0 5 (by decide)⟩

/-! ### Archive extraction (claim C5) -/

/-- Claim C5: extraction materializes exactly the flat entries — an entry
whose name ends with a path separator or contains a path separator is
skipped, every other entry is written as a same-named file; in
particular the archive `["a.txt", "dir/", "dir/b.txt"]` yields exactly
the one extracted file `a.txt`. -/
theorem extract_zip_contents_flat_entries (entries : List (List Char)) (name : List Char) :
    (name ∈ extract_zip_contents entries ↔ name ∈ entries ∧ skipEntry name = false) ∧
    extract_zip_contents ["a.txt".data, "dir/".data, "dir/b.txt".data] = ["a.txt".data] := by
  refine ⟨?_, by decide⟩
  induction entries with
  | nil => simp [extract_zip_contents]
  | cons e rest ih =>
    by_cases h : skipEntry e = true
    · rw [extract_zip_contents, if_pos h, ih, List.mem_cons]
      constructor
      · rintro ⟨hm, hs⟩
        exact ⟨Or.inr hm, hs⟩
      · rintro ⟨hor, hs⟩
        rcases hor with rfl | hm
        · rw [hs] at h
          cases h
        · exact ⟨hm, hs⟩
    · rw [extract_zip_contents, if_neg h, List.mem_cons, List.mem_cons, ih]
      have hf : skipEntry e = false := by
        cases hse : skipEntry e
        · rfl
        · exact absurd hse h
      constructor
      · rintro (rfl | ⟨hm, hs⟩)
        · exact ⟨Or.inl rfl, hf⟩
        · exact ⟨Or.inr hm, hs⟩
      · rintro ⟨hor, hs⟩
        rcases hor with rfl | hm
        · exact Or.inl rfl
        · exact Or.inr ⟨hm, hs⟩

/-! ### Conversion runs: event traces, fail-fast, manifest (claims C6-C10) -/

lemma convertLoop_nil (outcomes : Nat → InvocOutcome) (ext : String) (total i : Nat) :
    convertLoop outcomes ext total [] i = ⟨[], 0, [], none⟩ := rfl

lemma convertLoop_cons_success (outcomes : Nat → InvocOutcome) (ext : String)
    (total i : Nat) (f : String) (rest : List String)
    (h0 : outcomes i = InvocOutcome.exits 0) :
    convertLoop outcomes ext total (f :: rest) i =
      ⟨⟨f, i, total⟩ :: (convertLoop outcomes ext total rest (i + 1)).events,
       (convertLoop outcomes ext total rest (i + 1)).invocations + 1,
       setExtension f ext :: (convertLoop outcomes ext total rest (i + 1)).outFiles,
       (convertLoop outcomes ext total rest (i + 1)).err⟩ := by
  rw [convertLoop, h0]
  rfl

lemma convertLoop_cons_fail (outcomes : Nat → InvocOutcome) (ext : String)
    (total i : Nat) (f : String) (rest : List String) (c : Nat)
    (h0 : outcomes i = InvocOutcome.exits c) (hc : c ≠ 0) :
    convertLoop outcomes ext total (f :: rest) i =
      ⟨[⟨f, i, total⟩], 1, [setExtension f ext], some (RunError.convertFailed c)⟩ := by
  rw [convertLoop, h0]
  simp [hc]

lemma convertLoop_cons_spawn (outcomes : Nat → InvocOutcome) (ext : String)
    (total i : Nat) (f : String) (rest : List String)
    (h0 : outcomes i = InvocOutcome.spawnErr) :
    convertLoop outcomes ext total (f :: rest) i =
      ⟨[⟨f, i, total⟩], 1, [setExtension f ext], some RunError.spawnFailed⟩ := by
  rw [convertLoop, h0]

lemma convertLoop_all_success (outcomes : Nat → InvocOutcome) (ext : String) (total : Nat) :
    ∀ (files : List String) (i : Nat),
      (∀ j, i ≤ j → j < i + files.length → outcomes j = InvocOutcome.exits 0) →
      convertLoop outcomes ext total files i =
        ⟨(List.enumFrom i files).map (fun p => ⟨p.2, p.1, total⟩),
         files.length, files.map (fun f => setExtension f ext), none⟩ := by
  intro files
  induction files with
  | nil =>
    intro i h
    rfl
  | cons f rest ih =>
    intro i h
    have h0 : outcomes i = InvocOutcome.exits 0 := h i le_rfl (by simp)
    rw [convertLoop_cons_success outcomes ext total i f rest h0,
      ih (i + 1) (fun j h1 h2 => h j (by omega) (by simp; omega))]
    simp [List.enumFrom]

lemma convertLoop_invocations_le (outcomes : Nat → InvocOutcome) (ext : String)
    (total : Nat) :
    ∀ (files : List String) (i : Nat),
      (convertLoop outcomes ext total files i).invocations ≤ files.length := by
  intro files
  induction files with
  | nil =>
    intro i
    simp [convertLoop_nil]
  | cons f rest ih =>
    intro i
    rcases ho : outcomes i with code | _
    · by_cases hcode : code = 0
      · subst hcode
        rw [convertLoop_cons_success outcomes ext total i f rest ho]
        have := ih (i + 1)
        simp
        omega
      · rw [convertLoop_cons_fail outcomes ext total i f rest code ho hcode]
        simp
    · rw [convertLoop_cons_spawn outcomes ext total i f rest ho]
      simp

lemma convertLoop_fail (outcomes : Nat → InvocOutcome) (ext : String) (total : Nat) :
    ∀ (files : List String) (i k c : Nat),
      i ≤ k → k < i + files.length →
      (∀ j, j < k → outcomes j = InvocOutcome.exits 0) →
      outcomes k = InvocOutcome.exits c → c ≠ 0 →
      (convertLoop outcomes ext total files i).invocations = k + 1 - i ∧
      (convertLoop outcomes ext total files i).err = some (RunError.convertFailed c) := by
  intro files
  induction files with
  | nil =>
    intro i k c h1 h2 hpre hk hc
    simp at h2
    omega
  | cons f rest ih =>
    intro i k c h1 h2 hpre hk hc
    by_cases hik : i = k
    · subst hik
      rw [convertLoop_cons_fail outcomes ext total i f rest c hk hc]
      simp
    · have hlt : i < k := lt_of_le_of_ne h1 hik
      have h0 : outcomes i = InvocOutcome.exits 0 := hpre i hlt
      rw [convertLoop_cons_success outcomes ext total i f rest h0]
      have hrec := ih (i + 1) k c (by omega) (by simp at h2 ⊢; omega) hpre hk hc
      refine ⟨?_, ?_⟩
      · show (convertLoop outcomes ext total rest (i + 1)).invocations + 1 = k + 1 - i
        rw [hrec.1]
        omega
      · show (convertLoop outcomes ext total rest (i + 1)).err = _
        exact hrec.2

lemma process_files_not_mix (files root : List String) (format : AudioFormat)
    (dyn mix : Bool) (outcomes : Nat → InvocOutcome)
    (hmix : (mix && !files.isEmpty) = false) :
    process_files true files root format dyn mix outcomes =
      (let outputPath := if format.is_project_format then root ++ [AUP_FOLDER_NAME] else root
       let r := convertLoop outcomes format.extension files.length files 0
       match r.err with
       | some e => ⟨r.events, r.invocations, r.outFiles,
           r.outFiles.map (fun f => outputPath ++ [f]), none, none, Except.error e⟩
       | none => finishRun root format r.events r.invocations r.outFiles outputPath none) := by
  rw [process_files]
  simp only [Bool.not_true, Bool.false_eq_true, if_false, hmix]

lemma process_files_mix_run (files root : List String) (format : AudioFormat)
    (dyn mix : Bool) (outcomes : Nat → InvocOutcome)
    (hmix : (mix && !files.isEmpty) = true) :
    process_files true files root format dyn mix outcomes =
      (let outputPath := if format.is_project_format then root ++ [AUP_FOLDER_NAME] else root
       let ev : ProgressInfo := ⟨"Mixed output", 0, 1⟩
       let graph := mixGraph files.length dyn
       let outFile := setExtension "craig" format.extension
       match outcomes 0 with
       | InvocOutcome.exits code =>
         if code = 0 then
           finishRun root format [ev] 1 [outFile] outputPath (some graph)
         else ⟨[ev], 1, [outFile], [outputPath ++ [outFile]], some graph, none,
           Except.error (RunError.mixFailed code)⟩
       | InvocOutcome.spawnErr =>
         ⟨[ev], 1, [outFile], [outputPath ++ [outFile]], some graph, none,
           Except.error RunError.spawnFailed⟩) := by
  rw [process_files]
  simp only [Bool.not_true, Bool.false_eq_true, if_false, hmix, if_true]

lemma process_files_mix_success (files root : List String) (format : AudioFormat)
    (dyn mix : Bool) (outcomes : Nat → InvocOutcome)
    (hmix : (mix && !files.isEmpty) = true)
    (h0 : outcomes 0 = InvocOutcome.exits 0) :
    process_files true files root format dyn mix outcomes =
      finishRun root format [⟨"Mixed output", 0, 1⟩] 1
        [setExtension "craig" format.extension]
        (if format.is_project_format then root ++ [AUP_FOLDER_NAME] else root)
        (some (mixGraph files.length dyn)) := by
  rw [process_files_mix_run files root format dyn mix outcomes hmix, h0]
  rfl

lemma process_files_mix_fail (files root : List String) (format : AudioFormat)
    (dyn mix : Bool) (outcomes : Nat → InvocOutcome) (c : Nat)
    (hmix : (mix && !files.isEmpty) = true)
    (h0 : outcomes 0 = InvocOutcome.exits c) (hc : c ≠ 0) :
    process_files true files root format dyn mix outcomes =
      ⟨[⟨"Mixed output", 0, 1⟩], 1, [setExtension "craig" format.extension],
       [(if format.is_project_format then root ++ [AUP_FOLDER_NAME] else root) ++
         [setExtension "craig" format.extension]],
       some (mixGraph files.length dyn), none,
       Except.error (RunError.mixFailed c)⟩ := by
  rw [process_files_mix_run files root format dyn mix outcomes hmix, h0]
  simp [hc]

lemma process_files_mix_spawn (files root : List String) (format : AudioFormat)
    (dyn mix : Bool) (outcomes : Nat → InvocOutcome)
    (hmix : (mix && !files.isEmpty) = true)
    (h0 : outcomes 0 = InvocOutcome.spawnErr) :
    process_files true files root format dyn mix outcomes =
      ⟨[⟨"Mixed output", 0, 1⟩], 1, [setExtension "craig" format.extension],
       [(if format.is_project_format then root ++ [AUP_FOLDER_NAME] else root) ++
         [setExtension "craig" format.extension]],
       some (mixGraph files.length dyn), none,
       Except.error RunError.spawnFailed⟩ := by
  rw [process_files_mix_run files root format dyn mix outcomes hmix, h0]

lemma process_files_loop_ok (files root : List String) (format : AudioFormat)
    (dyn mix : Bool) (outcomes : Nat → InvocOutcome)
    (hmix : (mix && !files.isEmpty) = false)
    (herr : (convertLoop outcomes format.extension files.length files 0).err = none) :
    process_files true files root format dyn mix outcomes =
      finishRun root format
        (convertLoop outcomes format.extension files.length files 0).events
        (convertLoop outcomes format.extension files.length files 0).invocations
        (convertLoop outcomes format.extension files.length files 0).outFiles
        (if format.is_project_format then root ++ [AUP_FOLDER_NAME] else root) none := by
  rw [process_files_not_mix files root format dyn mix outcomes hmix]
  simp only [herr]

lemma process_files_loop_err (files root : List String) (format : AudioFormat)
    (dyn mix : Bool) (outcomes : Nat → InvocOutcome) (e : RunError)
    (hmix : (mix && !files.isEmpty) = false)
    (herr : (convertLoop outcomes format.extension files.length files 0).err = some e) :
    process_files true files root format dyn mix outcomes =
      ⟨(convertLoop outcomes format.extension files.length files 0).events,
       (convertLoop outcomes format.extension files.length files 0).invocations,
       (convertLoop outcomes format.extension files.length files 0).outFiles,
       (convertLoop outcomes format.extension files.length files 0).outFiles.map
         (fun f => (if format.is_project_format then root ++ [AUP_FOLDER_NAME] else root) ++ [f]),
       none, none, Except.error e⟩ := by
  rw [process_files_not_mix files root format dyn mix outcomes hmix]
  simp only [herr]

/-- Claim C6: for every non-mix run in which all invocations succeed,
exactly one `Processing` event is emitted per input file, the `i`-th
carrying the `i`-th file's name, `currentIndex = i` and
`totalCount = N`, and the trace ends with exactly one terminal event,
`Finished`. -/
theorem process_files_events_all_success
    (files root : List String) (format : AudioFormat) (dyn : Bool)
    (outcomes : Nat → InvocOutcome)
    (h : ∀ j, j < files.length → outcomes j = InvocOutcome.exits 0) :
    (process_files true files root format dyn false outcomes).events =
      (List.enumFrom 0 files).map (fun p => ⟨p.2, p.1, files.length⟩) ∧
    (process_files true files root format dyn false outcomes).invocations = files.length ∧
    runTask (Except.ok ()) true files root format dyn false outcomes =
      (List.enumFrom 0 files).map
        (fun p => AppEvent.processing ⟨p.2, p.1, files.length⟩) ++ [AppEvent.finished] := by
  have hcl := convertLoop_all_success outcomes format.extension files.length files 0
    (fun j h1 h2 => h j (by omega))
  have hev : (convertLoop outcomes format.extension files.length files 0).events =
      (List.enumFrom 0 files).map (fun p => ⟨p.2, p.1, files.length⟩) := by
    rw [hcl]
  have hinv : (convertLoop outcomes format.extension files.length files 0).invocations =
      files.length := by
    rw [hcl]
  have herr : (convertLoop outcomes format.extension files.length files 0).err = none := by
    rw [hcl]
  have hpf := process_files_loop_ok files root format dyn false outcomes (by simp) herr
  rw [hev, hinv] at hpf
  refine ⟨?_, ?_, ?_⟩
  · rw [hpf]
    simp [finishRun]
  · rw [hpf]
    simp [finishRun]
  · simp only [runTask]
    rw [hpf]
    simp [finishRun, List.map_map, Function.comp]

/-- Claim C6 witness: a concrete non-mix run over three files. -/
theorem process_files_events_all_success_witness :
    (process_files true ["a.flac", "b.flac", "c.flac"] ["out"] AudioFormat.FLAC false false
        (fun _ => InvocOutcome.exits 0)).events =
      (List.enumFrom 0 ["a.flac", "b.flac", "c.flac"]).map
        (fun p => ⟨p.2, p.1, (["a.flac", "b.flac", "c.flac"] : List String).length⟩) ∧
    (process_files true ["a.flac", "b.flac", "c.flac"] ["out"] AudioFormat.FLAC false false
        (fun _ => InvocOutcome.exits 0)).invocations =
      (["a.flac", "b.flac", "c.flac"] : List String).length ∧
    runTask (Except.ok ()) true ["a.flac", "b.flac", "c.flac"] ["out"] AudioFormat.FLAC
        false false (fun _ => InvocOutcome.exits 0) =
      (List.enumFrom 0 ["a.flac", "b.flac", "c.flac"]).map
        (fun p => AppEvent.processing
          ⟨p.2, p.1, (["a.flac", "b.flac", "c.flac"] : List String).length⟩)
        ++ [AppEvent.finished] :=
  process_files_events_all_success _ _ _ _ _ (fun _ _ => rfl)

/-- Claim C7: if the `k`-th external invocation exits with a non-zero
status (all earlier ones succeeding), no invocation after the `k`-th is
ever started — exactly `k + 1` are — and the run's single terminal event
is `Failed` carrying that numeric exit status. -/
theorem process_files_fail_fast
    (files root : List String) (format : AudioFormat) (dyn mix : Bool)
    (outcomes : Nat → InvocOutcome) (k c : Nat)
    (hpre : ∀ j, j < k → outcomes j = InvocOutcome.exits 0)
    (hk : outcomes k = InvocOutcome.exits c) (hc : c ≠ 0)
    (hstarted : k < (process_files true files root format dyn mix outcomes).invocations) :
    (process_files true files root format dyn mix outcomes).invocations = k + 1 ∧
    ∃ e : RunError,
      (process_files true files root format dyn mix outcomes).result = Except.error e ∧
      e.exitCode = some c ∧
      runTask (Except.ok ()) true files root format dyn mix outcomes =
        (process_files true files root format dyn mix outcomes).events.map
          AppEvent.processing ++ [AppEvent.failed (FailReason.run e)] := by
  by_cases hmix : (mix && !files.isEmpty) = true
  · rcases ho : outcomes 0 with code | _
    · by_cases hcode : code = 0
      · subst hcode
        have hpf := process_files_mix_success files root format dyn mix outcomes hmix ho
        rw [hpf] at hstarted
        simp [finishRun] at hstarted
        subst hstarted
        rw [ho] at hk
        cases hk
        exact absurd rfl hc
      · have hpf := process_files_mix_fail files root format dyn mix outcomes code hmix ho hcode
        rw [hpf] at hstarted
        simp at hstarted
        subst hstarted
        rw [ho] at hk
        injection hk with hcc
        subst hcc
        rw [hpf]
        refine ⟨rfl, RunError.mixFailed code, rfl, rfl, ?_⟩
        simp only [runTask]
        rw [hpf]
    · have hpf := process_files_mix_spawn files root format dyn mix outcomes hmix ho
      rw [hpf] at hstarted
      simp at hstarted
      subst hstarted
      rw [ho] at hk
      cases hk
  · have hmixf : (mix && !files.isEmpty) = false := by
      cases hb : (mix && !files.isEmpty)
      · rfl
      · exact absurd hb hmix
    have hle := convertLoop_invocations_le outcomes format.extension files.length files 0
    rcases herr : (convertLoop outcomes format.extension files.length files 0).err with _ | e
    · have hpf := process_files_loop_ok files root format dyn mix outcomes hmixf herr
      rw [hpf] at hstarted
      simp only [finishRun] at hstarted
      have hkf : k < files.length := by omega
      have hfail := convertLoop_fail outcomes format.extension files.length files 0 k c
        (Nat.zero_le k) (by omega) hpre hk hc
      rw [hfail.2] at herr
      cases herr
    · have hpf := process_files_loop_err files root format dyn mix outcomes e hmixf herr
      rw [hpf] at hstarted
      simp at hstarted
      have hkf : k < files.length := by omega
      have hfail := convertLoop_fail outcomes format.extension files.length files 0 k c
        (Nat.zero_le k) (by omega) hpre hk hc
      rw [hfail.2] at herr
      injection herr with he
      rw [hpf]
      refine ⟨?_, e, rfl, ?_, ?_⟩
      · show (convertLoop outcomes format.extension files.length files 0).invocations = k + 1
        rw [hfail.1]
        omega
      · rw [← he]
        rfl
      · simp only [runTask]
        rw [hpf]

/-- Claim C7 witness: a concrete five-file run whose second invocation
exits with status 7 starts exactly two invocations and fails with 7. -/
theorem process_files_fail_fast_witness :
    (process_files true ["a.flac", "b.flac", "c.flac", "d.flac", "e.flac"] ["out"]
        AudioFormat.FLAC false false
        (fun i => if i = 0 then InvocOutcome.exits 0 else InvocOutcome.exits 7)).invocations =
      1 + 1 ∧
    ∃ e : RunError,
      (process_files true ["a.flac", "b.flac", "c.flac", "d.flac", "e.flac"] ["out"]
          AudioFormat.FLAC false false
          (fun i => if i = 0 then InvocOutcome.exits 0 else InvocOutcome.exits 7)).result =
        Except.error e ∧
      e.exitCode = some 7 ∧
      runTask (Except.ok ()) true ["a.flac", "b.flac", "c.flac", "d.flac", "e.flac"] ["out"]
          AudioFormat.FLAC false false
          (fun i => if i = 0 then InvocOutcome.exits 0 else InvocOutcome.exits 7) =
        (process_files true ["a.flac", "b.flac", "c.flac", "d.flac", "e.flac"] ["out"]
            AudioFormat.FLAC false false
            (fun i => if i = 0 then InvocOutcome.exits 0 else InvocOutcome.exits 7)).events.map
          AppEvent.processing ++ [AppEvent.failed (FailReason.run e)] :=
  process_files_fail_fast _ _ _ _ _ _ 1 7
    (fun j hj => by
      have hj0 : j = 0 := by omega
      subst hj0
      rfl)
    rfl (by decide) (by decide)

/-- Claim C8: on every path — setup failure of any kind, conversion
failure, or full success — the run's channel trace consists of any
number of non-terminal `Processing` events followed by exactly one
terminal event (`Finished` or `Failed`), never zero and never more than
one. -/
theorem runTask_single_terminal_event (setup : Except SetupError Unit)
    (ffmpegExists : Bool) (files root : List String) (format : AudioFormat)
    (dyn mix : Bool) (outcomes : Nat → InvocOutcome) :
    ∃ (pre : List AppEvent) (t : AppEvent),
      runTask setup ffmpegExists files root format dyn mix outcomes = pre ++ [t] ∧
      t.isTerminal = true ∧ ∀ x ∈ pre, x.isTerminal = false := by
  cases setup with
  | error e =>
    exact ⟨[], AppEvent.failed (FailReason.setup e), rfl, rfl, by simp⟩
  | ok u =>
    cases u
    rcases hres : (process_files ffmpegExists files root format dyn mix outcomes).result
      with e | v
    · refine ⟨(process_files ffmpegExists files root format dyn mix outcomes).events.map
        AppEvent.processing, AppEvent.failed (FailReason.run e), ?_, rfl, ?_⟩
      · simp only [runTask, hres]
      · intro x hx
        rcases List.mem_map.1 hx with ⟨info, _, rfl⟩
        rfl
    · refine ⟨(process_files ffmpegExists files root format dyn mix outcomes).events.map
        AppEvent.processing, AppEvent.finished, ?_, rfl, ?_⟩
      · simp only [runTask, hres]
      · intro x hx
        rcases List.mem_map.1 hx with ⟨info, _, rfl⟩
        rfl

/-- Claim C9: for every successful run with the project format selected,
the manifest is written at `outputRoot/craig.aup` — directly under the
output root, not under the data subfolder — and consists of the fixed
header, one entry per produced output file in production order with the
fixed default per-track metadata, and the fixed closing tag, while the
audio files themselves are placed under `outputRoot/craig_data/`. -/
theorem process_files_project_manifest (files root : List String) (dyn mix : Bool)
    (outcomes : Nat → InvocOutcome)
    (hok : (process_files true files root AudioFormat.Audacity dyn mix outcomes).result =
      Except.ok ()) :
    (process_files true files root AudioFormat.Audacity dyn mix outcomes).aup =
      some (root ++ ["craig.aup"],
        AUP_HEADER ++
          String.join
            ((process_files true files root AudioFormat.Audacity dyn mix
              outcomes).resultFiles.map aupEntry) ++ "</project>") ∧
    (process_files true files root AudioFormat.Audacity dyn mix outcomes).outputPaths =
      (process_files true files root AudioFormat.Audacity dyn mix
        outcomes).resultFiles.map (fun f => root ++ [AUP_FOLDER_NAME] ++ [f]) := by
  by_cases hmix : (mix && !files.isEmpty) = true
  · rcases ho : outcomes 0 with code | _
    · by_cases hcode : code = 0
      · subst hcode
        have hpf := process_files_mix_success files root AudioFormat.Audacity dyn mix
          outcomes hmix ho
        rw [hpf]
        simp [finishRun, AudioFormat.is_project_format]
      · have hpf := process_files_mix_fail files root AudioFormat.Audacity dyn mix
          outcomes code hmix ho hcode
        rw [hpf] at hok
        simp at hok
    · have hpf := process_files_mix_spawn files root AudioFormat.Audacity dyn mix
        outcomes hmix ho
      rw [hpf] at hok
      simp at hok
  · have hmixf : (mix && !files.isEmpty) = false := by
      cases hb : (mix && !files.isEmpty)
      · rfl
      · exact absurd hb hmix
    rcases herr : (convertLoop outcomes AudioFormat.Audacity.extension files.length
        files 0).err with _ | e
    · have hpf := process_files_loop_ok files root AudioFormat.Audacity dyn mix outcomes
        hmixf herr
      rw [hpf]
      simp [finishRun, AudioFormat.is_project_format]
    · have hpf := process_files_loop_err files root AudioFormat.Audacity dyn mix outcomes
        e hmixf herr
      rw [hpf] at hok
      simp at hok

/-- Claim C9 witness: a concrete one-file project-format run writes the
manifest with one entry. -/
theorem process_files_project_manifest_witness :
    (process_files true ["a.flac"] ["out"] AudioFormat.Audacity false false
        (fun _ => InvocOutcome.exits 0)).aup =
      some ((["out"] : List String) ++ ["craig.aup"],
        AUP_HEADER ++
          String.join
            ((process_files true ["a.flac"] ["out"] AudioFormat.Audacity false false
              (fun _ => InvocOutcome.exits 0)).resultFiles.map aupEntry) ++ "</project>") ∧
    (process_files true ["a.flac"] ["out"] AudioFormat.Audacity false false
        (fun _ => InvocOutcome.exits 0)).outputPaths =
      (process_files true ["a.flac"] ["out"] AudioFormat.Audacity false false
        (fun _ => InvocOutcome.exits 0)).resultFiles.map
          (fun f => (["out"] : List String) ++ [AUP_FOLDER_NAME] ++ [f]) :=
  process_files_project_manifest _ _ _ _ _ rfl

/-- Claim C10: a run with mix requested but zero collected `.flac` input
files starts no external invocation, emits zero `Processing` events, and
terminates with `Finished`; with the project format selected, a manifest
consisting of the header and closing tag with no track entries is still
written to `outputRoot/craig.aup`. -/
theorem process_files_mix_empty_inputs (root : List String) (format : AudioFormat)
    (dyn : Bool) (outcomes : Nat → InvocOutcome) :
    (process_files true [] root format dyn true outcomes).invocations = 0 ∧
    (process_files true [] root format dyn true outcomes).events = [] ∧
    (process_files true [] root format dyn true outcomes).result = Except.ok () ∧
    runTask (Except.ok ()) true [] root format dyn true outcomes = [AppEvent.finished] ∧
    (process_files true [] root AudioFormat.Audacity dyn true outcomes).aup =
      some (root ++ ["craig.aup"], AUP_HEADER ++ "</project>") := by
  have hpf : ∀ fmt : AudioFormat, process_files true [] root fmt dyn true outcomes =
      finishRun root fmt [] 0 []
        (if fmt.is_project_format then root ++ [AUP_FOLDER_NAME] else root) none :=
    fun fmt => process_files_loop_ok [] root fmt dyn true outcomes (by simp) rfl
  have hjoin : AUP_HEADER ++ String.join (([] : List String).map aupEntry) ++ "</project>" =
      AUP_HEADER ++ "</project>" := by decide
  refine ⟨?_, ?_, ?_, ?_, ?_⟩
  · rw [hpf format]
    rfl
  · rw [hpf format]
    rfl
  · rw [hpf format]
    rfl
  · simp only [runTask]
    rw [hpf format]
    rfl
  · rw [hpf AudioFormat.Audacity]
    simp only [finishRun, AudioFormat.is_project_format, if_true]
    rw [← hjoin]

end Otterpack
